import Mathlib

/-!
Shallow embedding of the orchestration core of the Google-Maps actor
(src/main.js, primary variant): the dedupe / quality-monitor / retry-queue
pipeline around `onPlaceReady` (lines 699-796), the sequential extraction
dispatch loop of `scrapeWithBrowser` (lines 626-644), the feed-scroll
discovery loop (lines 574-619), the bounded worker pool
`runWithConcurrency` (lines 312-330) and the run-level `main` loop
(lines 657-823).

Numbers that the JS runtime holds as doubles are embedded as rationals;
every ratio that the program actually compares has a denominator of at
most 100, where rational and double comparison agree.  JS truthiness on
nullable string fields (null and the empty string are falsy) is embedded
explicitly via `strTruthy`.
-/

namespace GMaps

/-- JS `Math.round` on rationals: round half toward positive infinity. -/
def jsRound (q : ℚ) : ℤ := ⌊q + 1/2⌋

/-- JS truthiness of a nullable string: `null` and `""` are falsy. -/
def strTruthy : Option String → Bool
  | some s => s ≠ ""
  | none => false

/-- JS `a || b` where `a` is a nullable string and `b` a string fallback. -/
def jsOrStr : Option String → String → String
  | some s, b => if s = "" then b else s
  | none, b => b

/-- One extracted place record: the fields of `placeData` that the
orchestration core reads (produced by `extractPlace`, src/main.js:476-519). -/
structure Place where
  name : Option String
  place_id : Option String
  cid : Option String
  google_maps_url : String
  website : Option String
  phone : Option String
  whatsapp : Option String
  rating : Option ℚ
  reviews_count : Option ℕ
  full_address : Option String
deriving DecidableEq

/-- src/main.js:705 — `placeData.place_id || placeData.cid || placeData.google_maps_url`. -/
def dedupeKey (p : Place) : String :=
  jsOrStr p.place_id (jsOrStr p.cid p.google_maps_url)

/-- src/main.js:700 — `!placeData.name || placeData.name === 'Google Maps'`. -/
def nameInvalid (p : Place) : Bool :=
  !(strTruthy p.name) || p.name == some "Google Maps"

/-- src/main.js:524-529 — `QUALITY_THRESHOLDS` (fill floors per field). -/
def QUALITY_THRESHOLDS : List (String × ℚ) :=
  [("phone", 95/100), ("rating", 95/100), ("reviews_count", 85/100), ("full_address", 95/100)]

/-- src/main.js:541 — `r[field] != null && r[field] !== ''` for the four
threshold fields (the two numeric fields can never hold `''`). -/
def fieldFilled (r : Place) : String → Bool
  | "phone" => strTruthy r.phone
  | "rating" => r.rating.isSome
  | "reviews_count" => r.reviews_count.isSome
  | "full_address" => strTruthy r.full_address
  | _ => false

/-- src/main.js:537-548 — `checkQuality(window)`: the fields whose fill
fraction over the window is below their floor, with rounded percentages. -/
def checkQuality (w : List Place) : List (String × ℤ × ℤ) :=
  if w.length = 0 then [] else
  QUALITY_THRESHOLDS.filterMap fun ft =>
    let filled := (w.filter fun r => fieldFilled r ft.1).length
    let pct : ℚ := (filled : ℚ) / (w.length : ℚ)
    if pct < ft.2 then some (ft.1, jsRound (pct * 100), jsRound (ft.2 * 100)) else none

/-- src/main.js:733 and 758 — `!r.phone && !r.whatsapp` (no contact channel). -/
def semContato (r : Place) : Bool := !(strTruthy r.phone) && !(strTruthy r.whatsapp)

/-- src/main.js:758 — count of window records with no contact channel. -/
def semContatoCount (w : List Place) : ℕ := (w.filter fun r => semContato r).length

/-- src/main.js:758-762 — `contatoPct = 100 - Math.round(semContatoCount/len*100)`
followed by `contatoPct < 95`. -/
def hasContactProblem (w : List Place) : Bool :=
  decide (100 - jsRound ((semContatoCount w : ℚ) / (w.length : ℚ) * 100) < 95)

/-- src/main.js:778 — `hasContactProblem || failing.some(f => f.field === 'rating')`. -/
def shouldAbortDecision (w : List Place) : Bool :=
  hasContactProblem w || (checkQuality w).any fun f => f.1 == "rating"

/-- Annotated retry-queue entry (src/main.js:746-750). -/
structure RetryEntry where
  place : Place
  criticalIssues : List String
  warningIssues : List String
deriving DecidableEq

/-- src/main.js:731-740 — per-record critical issues. -/
def criticalIssuesOf (r : Place) : List String :=
  (if semContato r then ["sem_contato (phone e whatsapp ausentes)"] else []) ++
  (if r.rating.isSome && r.reviews_count.isNone then ["rating_sem_count"] else [])

/-- src/main.js:741-743 — per-record warning issues: every threshold field
except `phone` that is null/empty. -/
def warningIssuesOf (r : Place) : List String :=
  ((["rating", "reviews_count", "full_address"]).filter fun f => !(fieldFilled r f)).map
    (fun f => f ++ "_ausente")

/-- Run-scoped mutable state (src/main.js:687-688): the identity set and
the accumulated results, shared by every search term of one run. -/
structure RunState where
  seenPlaceIds : List String
  allResults : List Place
deriving DecidableEq

/-- Per-term (per-job) mutable state (src/main.js:693-695). -/
structure JobState where
  saved : ℕ
  qualityWindow : List Place
  retryQueue : List RetryEntry
deriving DecidableEq

/-- Observable actions of the pipeline.  `push` is `Actor.pushData` to the
main output stream; `flushRetry` is `Actor.pushData(..., {datasetName:
'retry_queue'})`, the side channel distinct from the main stream;
`checkpoint` marks one evaluation of the quality window; `dispatch i`
marks the dispatch loop starting extraction of reference `i`;
`abortObserved` marks the loop observing the `'ABORT'` return value. -/
inductive Event where
  | push (p : Place)
  | checkpoint (w : List Place)
  | flushRetry (q : List RetryEntry)
  | dispatch (i : ℕ)
  | abortObserved
deriving DecidableEq

/-- Result of one `onPlaceReady` call: updated states, emitted events in
order, and whether `'ABORT'` was returned. -/
structure StepOut where
  rs : RunState
  js : JobState
  evs : List Event
  abort : Bool
deriving DecidableEq

/-- src/main.js:696 — `QUALITY_CHECK_EVERY`. -/
def QUALITY_CHECK_EVERY : ℕ := 10

/-- src/main.js:697 — `QUALITY_WINDOW_SIZE`. -/
def QUALITY_WINDOW_SIZE : ℕ := 20

/-- Body of `onPlaceReady` after the three gates (src/main.js:717-795):
push the record, grow the sliding window (shift when over capacity),
possibly append a retry-queue entry, and run the periodic checkpoint
(`saved % 10 === 0 && qualityWindow.length >= 10`).  On abort the retry
queue is pushed to the side channel (only when non-empty) before
`'ABORT'` is returned.  The record is embedded as the `Place` itself: the
provenance fields (`search_term`, `location`, `scraped_at`) and the
`userData` pass-through (empty by default) do not touch the fields the
core reads. -/
def acceptPlace (rs : RunState) (js : JobState) (p : Place) : StepOut :=
  let rs1 : RunState := { rs with allResults := rs.allResults ++ [p] }
  let w0 := js.qualityWindow ++ [p]
  let window := if QUALITY_WINDOW_SIZE < w0.length then w0.tail else w0
  let saved := js.saved + 1
  let retryQ := if criticalIssuesOf p ≠ [] ∨ warningIssuesOf p ≠ [] then
      js.retryQueue ++ [⟨p, criticalIssuesOf p, warningIssuesOf p⟩]
    else js.retryQueue
  let js1 : JobState := ⟨saved, window, retryQ⟩
  if saved % QUALITY_CHECK_EVERY = 0 ∧ QUALITY_CHECK_EVERY ≤ window.length then
    if shouldAbortDecision window then
      ⟨rs1, js1, [.push p, .checkpoint window] ++ (if retryQ ≠ [] then [.flushRetry retryQ] else []),
        true⟩
    else ⟨rs1, js1, [.push p, .checkpoint window], false⟩
  else ⟨rs1, js1, [.push p], false⟩

/-- Run-level configuration relevant to the core (src/main.js:663-671). -/
structure Config where
  onlyWithWebsite : Bool
deriving DecidableEq

/-- src/main.js:699-796 — `onPlaceReady`: name gate, dedupe gate (the key
is marked seen before the website filter runs), website filter, then
`acceptPlace`. -/
def onPlaceReady (cfg : Config) (rs : RunState) (js : JobState) (p : Place) : StepOut :=
  if nameInvalid p then ⟨rs, js, [], false⟩
  else if dedupeKey p ∈ rs.seenPlaceIds then ⟨rs, js, [], false⟩
  else
    let rs1 : RunState := { rs with seenPlaceIds := dedupeKey p :: rs.seenPlaceIds }
    if cfg.onlyWithWebsite && !(strTruthy p.website) then ⟨rs1, js, [], false⟩
    else acceptPlace rs1 js p

/-- Result of one job's dispatch loop: final states, the event trace, and
the references left undispatched when the loop stopped. -/
structure JobOut where
  rs : RunState
  js : JobState
  evs : List Event
  remaining : List (Option Place)
deriving DecidableEq

/-- src/main.js:626-644 — the sequential extraction dispatch loop of
`scrapeWithBrowser`.  Each list element is one discovered reference's
extraction outcome (`none` = `extractPlace` threw, caught and logged).
After `onPlaceReady` returns `'ABORT'` the `aborted` flag stops the loop
before the next dispatch; the unconsumed suffix is returned as
`remaining`. -/
def jobLoop (cfg : Config) : List (Option Place) → ℕ → RunState → JobState → JobOut
  | [], _, rs, js => ⟨rs, js, [], []⟩
  | none :: rest, i, rs, js =>
    let r := jobLoop cfg rest (i + 1) rs js
    ⟨r.rs, r.js, .dispatch i :: r.evs, r.remaining⟩
  | some p :: rest, i, rs, js =>
    let s := onPlaceReady cfg rs js p
    if s.abort then ⟨s.rs, s.js, .dispatch i :: s.evs ++ [.abortObserved], rest⟩
    else
      let r := jobLoop cfg rest (i + 1) s.rs s.js
      ⟨r.rs, r.js, .dispatch i :: s.evs ++ r.evs, r.remaining⟩

/-- Fresh per-job state (src/main.js:693-695: `saved = 0`, empty window,
empty retry queue — created anew for every search term). -/
def jobInit : JobState := ⟨0, [], []⟩

/-- One search term's job, started on fresh per-job state. -/
def runJob (cfg : Config) (rs : RunState) (os : List (Option Place)) : JobOut :=
  jobLoop cfg os 0 rs jobInit

/-- src/main.js:690-815 — the per-term loop.  One entry per search term:
`error` models `scrapeWithBrowser` throwing before any reference was
processed (the `catch` only logs and `continue`s); a job that throws
after processing a prefix is modelled by that prefix.  The run state is
threaded through; job state is fresh per term. -/
def runTerms (cfg : Config) : List (Except Unit (List (Option Place))) → RunState →
    RunState × List Event
  | [], rs => (rs, [])
  | .error _ :: rest, rs => runTerms cfg rest rs
  | .ok os :: rest, rs =>
    let j := runJob cfg rs os
    let r := runTerms cfg rest j.rs
    (r.1, j.evs ++ r.2)

/-- Run-level input as read by `main` (src/main.js:658-671); `none` in
`searchTerms`/`location` models an absent property. -/
structure Input where
  searchTerms : Option (List String)
  location : Option String
  onlyWithWebsite : Bool
deriving DecidableEq

/-- Initial run state: empty identity set, no results. -/
def rsInit : RunState := ⟨[], []⟩

/-- src/main.js:657-823 — `main`: validation (`!input?.searchTerms?.length`
then `!input.location`) throws before any scraping; on valid input the
per-term loop runs, fed one extraction-outcome list per term. -/
def runMain (input : Option Input) (outcomes : List (Except Unit (List (Option Place)))) :
    Except String (RunState × List Event) :=
  match input with
  | none => .error "searchTerms é obrigatório"
  | some inp =>
    match inp.searchTerms with
    | none => .error "searchTerms é obrigatório"
    | some [] => .error "searchTerms é obrigatório"
    | some (_ :: _) =>
      if !(strTruthy inp.location) then .error "location é obrigatório"
      else .ok (runTerms ⟨inp.onlyWithWebsite⟩ outcomes rsInit)

/-- Records pushed to the main output stream, in order, within a trace. -/
def pushesOf (evs : List Event) : List Place :=
  evs.filterMap fun e => match e with | .push p => some p | _ => none

/-- Window snapshots of the checkpoints evaluated within a trace. -/
def checkpointsOf (evs : List Event) : List (List Place) :=
  evs.filterMap fun e => match e with | .checkpoint w => some w | _ => none

/-- Retry-queue batches emitted to the side channel within a trace. -/
def flushesOf (evs : List Event) : List (List RetryEntry) :=
  evs.filterMap fun e => match e with | .flushRetry q => some q | _ => none

/-- Indices of references whose extraction was dispatched within a trace. -/
def dispatchesOf (evs : List Event) : List ℕ :=
  evs.filterMap fun e => match e with | .dispatch i => some i | _ => none

/-- Whether a run failed fatally (the top-level `catch` rethrows). -/
def isErr : Except String (RunState × List Event) → Bool
  | .error _ => true
  | .ok _ => false

/-- Records pushed to the main output stream by a whole run (a fatal run
pushes nothing: validation precedes the scraping loop). -/
def runPushes (r : Except String (RunState × List Event)) : List Place :=
  match r with
  | .error _ => []
  | .ok (_, evs) => pushesOf evs

/-! ### Link discovery (src/main.js:574-619) -/

/-- One scroll round's observations of the feed: the anchor count, the
end-of-list message test, and the feed's `scrollHeight` after scrolling. -/
structure ScrollObs where
  count : ℕ
  endOfList : Bool
  height : ℤ
deriving DecidableEq

/-- src/main.js:575-606 — the `while (true)` scroll loop.  `stream n` is
what round `n` observes.  State: `prev` (previous height, initially 0)
and `stalledCount`.  Exits when the count target or the end-of-list
message fires, or after 3 consecutive rounds with unchanged height;
`fuel` bounds the rounds we unroll, `none` meaning the loop was still
running after `fuel` rounds.  Returns the exit round otherwise. -/
def discoverLoop (stream : ℕ → ScrollObs) (maxPlaces : ℕ) :
    ℕ → ℕ → ℤ → ℕ → Option ℕ
  | 0, _, _, _ => none
  | fuel + 1, n, prev, stalled =>
    let ob := stream n
    if maxPlaces ≤ ob.count ∨ ob.endOfList = true then some n
    else if ob.height = prev then
      (if 3 ≤ stalled + 1 then some n
       else discoverLoop stream maxPlaces fuel (n + 1) ob.height (stalled + 1))
    else discoverLoop stream maxPlaces fuel (n + 1) ob.height 0

/-- src/main.js:608-619 — collect distinct non-empty hrefs in order,
breaking once `result.length >= max` (checked after each push). -/
def collectLinksGo (max : ℕ) : List String → List String → List String
  | [], acc => acc
  | h :: rest, acc =>
    if h ≠ "" ∧ ¬(h ∈ acc) then
      (let acc1 := acc ++ [h]
       if max ≤ acc1.length then acc1 else collectLinksGo max rest acc1)
    else collectLinksGo max rest acc

/-- The link list handed to the extraction stage. -/
def collectLinks (hrefs : List String) (max : ℕ) : List String :=
  collectLinksGo max hrefs []

/-! ### Bounded worker pool (src/main.js:312-330, `runWithConcurrency`)

Each task's eventual outcome is an `Option α` (`none` = the task threw,
so `results[i] = null`).  The pool is a small state machine: `cursor` is
the shared `index`, `results` the shared array (`none` = cell not yet
written), `workers` the pool (`some i` = that worker is awaiting task
`i`).  A schedule is the order in which workers take a step, so every
cooperative interleaving of the JS workers is one schedule. -/

structure SchedState (α : Type) where
  cursor : ℕ
  results : List (Option (Option α))
  workers : List (Option ℕ)
deriving DecidableEq

/-- Initial pool state: `Array.from({length: min(concurrency, N)}, worker)`. -/
def schedInit (α : Type) (N W : ℕ) : SchedState α :=
  ⟨0, List.replicate N none, List.replicate W none⟩

/-- One step of worker `w`: an idle worker claims `index++` (when tasks
remain), a busy worker's awaited task resolves and writes its cell. -/
def schedStep (tasks : List (Option α)) (st : SchedState α) (w : ℕ) : SchedState α :=
  match st.workers[w]? with
  | Option.none => st
  | some (some i) =>
    { st with results := st.results.set i (some ((tasks[i]?).getD none)),
              workers := st.workers.set w none }
  | some none =>
    if st.cursor < tasks.length then
      { st with workers := st.workers.set w (some st.cursor), cursor := st.cursor + 1 }
    else st

/-- Run the pool under a given schedule of worker steps. -/
def schedRun (tasks : List (Option α)) (st : SchedState α) (sched : List ℕ) : SchedState α :=
  sched.foldl (schedStep tasks) st

/-- `Promise.all(workers)` has resolved: the cursor is exhausted and no
worker still awaits a task. -/
def Quiescent (tasks : List (Option α)) (st : SchedState α) : Prop :=
  st.cursor = tasks.length ∧ ∀ o ∈ st.workers, o = none

instance (tasks : List (Option α)) (st : SchedState α) : Decidable (Quiescent tasks st) := by
  unfold Quiescent
  infer_instance

/-! ## Helper lemmas about event traces -/

theorem pushesOf_append (a b : List Event) :
    pushesOf (a ++ b) = pushesOf a ++ pushesOf b := by
  simp [pushesOf]

theorem flushesOf_append (a b : List Event) :
    flushesOf (a ++ b) = flushesOf a ++ flushesOf b := by
  simp [flushesOf]

theorem checkpointsOf_append (a b : List Event) :
    checkpointsOf (a ++ b) = checkpointsOf a ++ checkpointsOf b := by
  simp [checkpointsOf]

theorem dispatchesOf_append (a b : List Event) :
    dispatchesOf (a ++ b) = dispatchesOf a ++ dispatchesOf b := by
  simp [dispatchesOf]

/-! ## Characterization of one `acceptPlace` call -/

/-- The accept path never touches the identity set. -/
theorem acceptPlace_seen (rs : RunState) (js : JobState) (p : Place) :
    (acceptPlace rs js p).rs.seenPlaceIds = rs.seenPlaceIds := by
  simp only [acceptPlace]
  repeat' split
  all_goals rfl

/-- The accept path pushes exactly the accepted record to the main stream. -/
theorem acceptPlace_pushes (rs : RunState) (js : JobState) (p : Place) :
    pushesOf (acceptPlace rs js p).evs = [p] := by
  simp only [acceptPlace]
  repeat' split
  all_goals simp [pushesOf]

/-- Flush batches emitted by the accept path: none without an abort, and on
abort exactly the (non-empty) retry queue, which is also the final queue. -/
theorem acceptPlace_flushes (rs : RunState) (js : JobState) (p : Place) :
    ((acceptPlace rs js p).abort = false → flushesOf (acceptPlace rs js p).evs = []) ∧
    ∀ q ∈ flushesOf (acceptPlace rs js p).evs,
      q = (acceptPlace rs js p).js.retryQueue ∧ q ≠ [] ∧ (acceptPlace rs js p).abort = true := by
  simp only [acceptPlace]
  repeat' split
  all_goals simp_all [flushesOf]

/-- The accept path evaluates a checkpoint exactly when the new `saved`
count is a multiple of 10 and the new window holds at least 10 records;
the snapshot is the new window. -/
theorem acceptPlace_checkpoints (rs : RunState) (js : JobState) (p : Place) :
    checkpointsOf (acceptPlace rs js p).evs =
      (if (js.saved + 1) % QUALITY_CHECK_EVERY = 0 ∧
          QUALITY_CHECK_EVERY ≤ (acceptPlace rs js p).js.qualityWindow.length then
        [(acceptPlace rs js p).js.qualityWindow] else []) := by
  simp only [acceptPlace]
  repeat' split
  all_goals simp_all [checkpointsOf]

/-- The accept path bumps `saved` and grows the window by the new record,
shifting the oldest record out when the capacity is exceeded. -/
theorem acceptPlace_js (rs : RunState) (js : JobState) (p : Place) :
    (acceptPlace rs js p).js.saved = js.saved + 1 ∧
    (acceptPlace rs js p).js.qualityWindow =
      (if QUALITY_WINDOW_SIZE < (js.qualityWindow ++ [p]).length then
        (js.qualityWindow ++ [p]).tail else js.qualityWindow ++ [p]) := by
  simp only [acceptPlace]
  repeat' split
  all_goals simp_all

/-! ## Characterization of one `onPlaceReady` call -/

/-- The three gates in front of `acceptPlace`, in code order: valid name,
identity key not yet seen, and (when configured) a truthy website. -/
def AcceptCond (cfg : Config) (rs : RunState) (p : Place) : Prop :=
  nameInvalid p = false ∧ dedupeKey p ∉ rs.seenPlaceIds ∧
    (cfg.onlyWithWebsite = true → strTruthy p.website = true)

instance (cfg : Config) (rs : RunState) (p : Place) : Decidable (AcceptCond cfg rs p) := by
  unfold AcceptCond
  infer_instance

/-- A record is pushed to the main output stream iff it passes all three
gates, and then it is pushed exactly once. -/
theorem onPlaceReady_pushes (cfg : Config) (rs : RunState) (js : JobState) (p : Place) :
    pushesOf (onPlaceReady cfg rs js p).evs = if AcceptCond cfg rs p then [p] else [] := by
  simp only [onPlaceReady]
  by_cases h1 : nameInvalid p = true
  · simp [h1, AcceptCond, pushesOf]
  · by_cases h2 : dedupeKey p ∈ rs.seenPlaceIds
    · simp [h1, h2, AcceptCond, pushesOf]
    · by_cases h3 : (cfg.onlyWithWebsite && !(strTruthy p.website)) = true
      · simp only [Bool.and_eq_true, Bool.not_eq_true'] at h3
        simp [h1, h2, h3, AcceptCond, pushesOf]
      · rw [if_neg h1, if_neg h2, if_neg h3, acceptPlace_pushes]
        simp only [Bool.and_eq_true, Bool.not_eq_true', not_and] at h3
        rw [if_pos]
        refine ⟨by simp_all, h2, ?_⟩
        intro hw
        have := h3 hw
        simp_all

/-- The identity set after one call: the key is marked as soon as the
record passes the name gate and the dedupe gate — before the website
filter runs. -/
theorem onPlaceReady_seen (cfg : Config) (rs : RunState) (js : JobState) (p : Place) :
    (onPlaceReady cfg rs js p).rs.seenPlaceIds =
      if nameInvalid p = false ∧ dedupeKey p ∉ rs.seenPlaceIds then
        dedupeKey p :: rs.seenPlaceIds
      else rs.seenPlaceIds := by
  simp only [onPlaceReady]
  by_cases h1 : nameInvalid p = true
  · simp [h1]
  · by_cases h2 : dedupeKey p ∈ rs.seenPlaceIds
    · simp [h1, h2]
    · by_cases h3 : (cfg.onlyWithWebsite && !(strTruthy p.website)) = true
      · rw [if_neg h1, if_neg h2, if_pos h3, if_pos (by simp_all)]
      · rw [if_neg h1, if_neg h2, if_neg h3, if_pos (by simp_all)]
        rw [acceptPlace_seen]

/-- The identity set never shrinks. -/
theorem onPlaceReady_seen_mono (cfg : Config) (rs : RunState) (js : JobState) (p : Place) :
    ∀ k ∈ rs.seenPlaceIds, k ∈ (onPlaceReady cfg rs js p).rs.seenPlaceIds := by
  intro k hk
  rw [onPlaceReady_seen]
  split
  · exact List.mem_cons_of_mem _ hk
  · exact hk

/-- Every record pushed by a call has its key in the resulting identity
set, and that key was fresh relative to the incoming identity set. -/
theorem onPlaceReady_push_key (cfg : Config) (rs : RunState) (js : JobState) (p : Place) :
    ∀ q ∈ pushesOf (onPlaceReady cfg rs js p).evs,
      dedupeKey q ∈ (onPlaceReady cfg rs js p).rs.seenPlaceIds ∧
        dedupeKey q ∉ rs.seenPlaceIds := by
  intro q hq
  rw [onPlaceReady_pushes] at hq
  rw [onPlaceReady_seen]
  by_cases hacc : AcceptCond cfg rs p
  · rw [if_pos hacc] at hq
    simp only [List.mem_singleton] at hq
    subst hq
    rw [if_pos ⟨hacc.1, hacc.2.1⟩]
    exact ⟨List.mem_cons_self _ _, hacc.2.1⟩
  · rw [if_neg hacc] at hq
    simp at hq

/-! ## Trace extraction distributes over cons -/

@[simp] theorem pushesOf_nil : pushesOf [] = [] := rfl

@[simp] theorem pushesOf_push (p : Place) (evs : List Event) :
    pushesOf (.push p :: evs) = p :: pushesOf evs := rfl

@[simp] theorem pushesOf_checkpoint (w : List Place) (evs : List Event) :
    pushesOf (.checkpoint w :: evs) = pushesOf evs := rfl

@[simp] theorem pushesOf_flushRetry (q : List RetryEntry) (evs : List Event) :
    pushesOf (.flushRetry q :: evs) = pushesOf evs := rfl

@[simp] theorem pushesOf_dispatch (i : ℕ) (evs : List Event) :
    pushesOf (.dispatch i :: evs) = pushesOf evs := rfl

@[simp] theorem pushesOf_abortObserved (evs : List Event) :
    pushesOf (.abortObserved :: evs) = pushesOf evs := rfl

/-! ## Deduplication invariant through the dispatch loop and the run -/

/-- Dispatch-loop invariant: the identity set only grows, every pushed
record's key lands in the final identity set and was fresh at loop
entry, and the pushed keys are pairwise distinct. -/
theorem jobLoop_dedupe (cfg : Config) (os : List (Option Place)) :
    ∀ (i : ℕ) (rs : RunState) (js : JobState),
      (∀ k ∈ rs.seenPlaceIds, k ∈ (jobLoop cfg os i rs js).rs.seenPlaceIds) ∧
      (∀ q ∈ pushesOf (jobLoop cfg os i rs js).evs,
        dedupeKey q ∈ (jobLoop cfg os i rs js).rs.seenPlaceIds ∧
          dedupeKey q ∉ rs.seenPlaceIds) ∧
      ((pushesOf (jobLoop cfg os i rs js).evs).map dedupeKey).Nodup := by
  induction os with
  | nil =>
    intro i rs js
    simp [jobLoop]
  | cons o rest ih =>
    intro i rs js
    match o with
    | none =>
      have h := ih (i + 1) rs js
      simpa [jobLoop] using h
    | some p =>
      simp only [jobLoop]
      by_cases hab : (onPlaceReady cfg rs js p).abort = true
      · rw [if_pos hab]
        have hpush := onPlaceReady_push_key cfg rs js p
        have hmono := onPlaceReady_seen_mono cfg rs js p
        have hchar := onPlaceReady_pushes cfg rs js p
        refine ⟨by simpa using hmono, ?_, ?_⟩
        · intro q hq
          simp only [pushesOf_dispatch, pushesOf_append, pushesOf_abortObserved,
            pushesOf_nil, List.append_nil] at hq
          exact hpush q hq
        · simp only [pushesOf_dispatch, pushesOf_append, pushesOf_abortObserved,
            pushesOf_nil, List.append_nil]
          rw [hchar]
          split <;> simp
      · rw [if_neg hab]
        have hstep_mono := onPlaceReady_seen_mono cfg rs js p
        have hstep_push := onPlaceReady_push_key cfg rs js p
        have hstep_char := onPlaceReady_pushes cfg rs js p
        have hrec := ih (i + 1) (onPlaceReady cfg rs js p).rs (onPlaceReady cfg rs js p).js
        obtain ⟨hrec_mono, hrec_push, hrec_nodup⟩ := hrec
        refine ⟨?_, ?_, ?_⟩
        · intro k hk
          simpa using hrec_mono k (hstep_mono k hk)
        · intro q hq
          simp only [pushesOf_dispatch, pushesOf_append, List.mem_append] at hq ⊢
          rcases hq with hq | hq
          · obtain ⟨hin, hfresh⟩ := hstep_push q hq
            exact ⟨hrec_mono _ hin, hfresh⟩
          · obtain ⟨hin, hfresh⟩ := hrec_push q hq
            exact ⟨hin, fun hmem => hfresh (hstep_mono _ hmem)⟩
        · simp only [pushesOf_dispatch, pushesOf_append, List.map_append]
          refine List.Nodup.append ?_ hrec_nodup ?_
          · rw [hstep_char]
            split <;> simp
          · intro x hx hx2
            simp only [List.mem_map] at hx hx2
            obtain ⟨q1, hq1, rfl⟩ := hx
            obtain ⟨q2, hq2, heq⟩ := hx2
            obtain ⟨hin1, _⟩ := hstep_push q1 hq1
            obtain ⟨_, hfresh2⟩ := hrec_push q2 hq2
            rw [heq] at hfresh2
            exact hfresh2 hin1

/-- Run-level dedupe invariant across all search terms. -/
theorem runTerms_dedupe (cfg : Config) (outs : List (Except Unit (List (Option Place)))) :
    ∀ (rs : RunState),
      (∀ k ∈ rs.seenPlaceIds, k ∈ (runTerms cfg outs rs).1.seenPlaceIds) ∧
      (∀ q ∈ pushesOf (runTerms cfg outs rs).2,
        dedupeKey q ∈ (runTerms cfg outs rs).1.seenPlaceIds ∧
          dedupeKey q ∉ rs.seenPlaceIds) ∧
      ((pushesOf (runTerms cfg outs rs).2).map dedupeKey).Nodup := by
  induction outs with
  | nil =>
    intro rs
    simp [runTerms]
  | cons o rest ih =>
    intro rs
    match o with
    | .error e =>
      simpa [runTerms] using ih rs
    | .ok os =>
      simp only [runTerms]
      have hjob := jobLoop_dedupe cfg os 0 rs jobInit
      obtain ⟨hjob_mono, hjob_push, hjob_nodup⟩ := hjob
      have hrec := ih (runJob cfg rs os).rs
      obtain ⟨hrec_mono, hrec_push, hrec_nodup⟩ := hrec
      refine ⟨?_, ?_, ?_⟩
      · intro k hk
        exact hrec_mono k (hjob_mono k hk)
      · intro q hq
        rw [pushesOf_append, List.mem_append] at hq
        rcases hq with hq | hq
        · obtain ⟨hin, hfresh⟩ := hjob_push q hq
          exact ⟨hrec_mono _ hin, hfresh⟩
        · obtain ⟨hin, hfresh⟩ := hrec_push q hq
          exact ⟨hin, fun hmem => hfresh (hjob_mono _ hmem)⟩
      · rw [pushesOf_append, List.map_append]
        refine List.Nodup.append hjob_nodup hrec_nodup ?_
        intro x hx hx2
        simp only [List.mem_map] at hx hx2
        obtain ⟨q1, hq1, rfl⟩ := hx
        obtain ⟨q2, hq2, heq⟩ := hx2
        obtain ⟨hin1, _⟩ := hjob_push q1 hq1
        obtain ⟨_, hfresh2⟩ := hrec_push q2 hq2
        rw [heq] at hfresh2
        exact hfresh2 hin1

/-- C1: across a whole run, every identity key — `place_id`, else `cid`,
else the raw `google_maps_url` — appears at most once among the records
pushed to the main output stream (first conjunct), and one `onPlaceReady`
call pushes its record exactly when it has a valid name, its resolved key
is not yet in the run-scoped seen set, and the website filter passes;
in every other case (in particular whenever the key was already marked
seen, through any fallback branch) nothing is pushed (second conjunct). -/
theorem c1_identity_key_unique :
    (∀ (input : Option Input) (outcomes : List (Except Unit (List (Option Place)))),
      ((runPushes (runMain input outcomes)).map dedupeKey).Nodup) ∧
    (∀ (cfg : Config) (rs : RunState) (js : JobState) (p : Place),
      pushesOf (onPlaceReady cfg rs js p).evs = if AcceptCond cfg rs p then [p] else []) := by
  constructor
  · intro input outcomes
    match input with
    | none => simp [runMain, runPushes]
    | some inp =>
      match h : inp.searchTerms with
      | none => simp [runMain, h, runPushes]
      | some [] => simp [runMain, h, runPushes]
      | some (t :: ts) =>
        simp only [runMain, h]
        by_cases hloc : strTruthy inp.location = true
        · rw [if_neg (by simp [hloc])]
          simpa [runPushes] using (runTerms_dedupe ⟨inp.onlyWithWebsite⟩ outcomes rsInit).2.2
        · rw [if_pos (by simp [Bool.not_eq_true] at hloc ⊢; exact hloc)]
          simp [runPushes]
  · exact onPlaceReady_pushes

/-- C9: a record whose name is absent or the generic `'Google Maps'`
placeholder is discarded before the dedupe gate: the call pushes nothing,
changes neither the identity set nor the job state (window, retry queue,
saved count), and returns no abort. -/
theorem c9_invalid_name_discarded (cfg : Config) (rs : RunState) (js : JobState) (p : Place)
    (h : p.name = none ∨ p.name = some "Google Maps") :
    onPlaceReady cfg rs js p = ⟨rs, js, [], false⟩ := by
  have hn : nameInvalid p = true := by
    rcases h with h | h <;> simp [nameInvalid, strTruthy, h]
  simp [onPlaceReady, hn]

/-- Witness for C9 at a concrete placeholder-named record. -/
theorem c9_witness :
    onPlaceReady ⟨false⟩ rsInit jobInit
      ⟨some "Google Maps", none, none, "u1", none, none, none, none, none, none⟩ =
      ⟨rsInit, jobInit, [], false⟩ :=
  c9_invalid_name_discarded ⟨false⟩ rsInit jobInit _ (Or.inr rfl)

/-- A call on an invalid-named record is a complete no-op. -/
theorem onPlaceReady_badname (cfg : Config) (rs : RunState) (js : JobState) (q : Place)
    (hn : nameInvalid q = true) : onPlaceReady cfg rs js q = ⟨rs, js, [], false⟩ := by
  simp [onPlaceReady, hn]

/-- A call on a record whose key is already seen is a complete no-op. -/
theorem onPlaceReady_dup (cfg : Config) (rs : RunState) (js : JobState) (q : Place)
    (hn : nameInvalid q = false) (hd : dedupeKey q ∈ rs.seenPlaceIds) :
    onPlaceReady cfg rs js q = ⟨rs, js, [], false⟩ := by
  simp only [onPlaceReady]
  rw [if_neg (by simp [hn]), if_pos hd]

/-- C10: a record that passes the name and dedupe gates but is dropped by
the `onlyWithWebsite` filter is not pushed, yet its identity key is
already marked seen; any later record resolving to the same key is then
rejected as a duplicate (no push, no state change) although no record
with that key was ever pushed. -/
theorem c10_filtered_key_marked_seen (cfg : Config) (rs : RunState) (js js2 : JobState)
    (p q : Place) (hw : cfg.onlyWithWebsite = true) (hn : nameInvalid p = false)
    (hs : dedupeKey p ∉ rs.seenPlaceIds) (hweb : strTruthy p.website = false)
    (hq : dedupeKey q = dedupeKey p) :
    pushesOf (onPlaceReady cfg rs js p).evs = [] ∧
    dedupeKey p ∈ (onPlaceReady cfg rs js p).rs.seenPlaceIds ∧
    onPlaceReady cfg (onPlaceReady cfg rs js p).rs js2 q =
      ⟨(onPlaceReady cfg rs js p).rs, js2, [], false⟩ := by
  have hrs : (onPlaceReady cfg rs js p).rs.seenPlaceIds = dedupeKey p :: rs.seenPlaceIds := by
    rw [onPlaceReady_seen, if_pos ⟨hn, hs⟩]
  refine ⟨?_, ?_, ?_⟩
  · rw [onPlaceReady_pushes, if_neg]
    intro hacc
    have := hacc.2.2 hw
    simp_all
  · rw [hrs]
    exact List.mem_cons_self _ _
  · by_cases hnq : nameInvalid q = true
    · exact onPlaceReady_badname cfg _ js2 q hnq
    · have hmem : dedupeKey q ∈ (onPlaceReady cfg rs js p).rs.seenPlaceIds := by
        rw [hq, hrs]
        exact List.mem_cons_self _ _
      exact onPlaceReady_dup cfg _ js2 q (by simpa using hnq) hmem

/-- Witness for C10: a website-less record marks key `"u1"` seen without
being pushed, and a second record with the same raw-reference key is then
rejected. -/
theorem c10_witness :
    pushesOf (onPlaceReady ⟨true⟩ rsInit jobInit
      ⟨some "A", none, none, "u1", none, none, none, none, none, none⟩).evs = [] ∧
    dedupeKey ⟨some "A", none, none, "u1", none, none, none, none, none, none⟩ ∈
      (onPlaceReady ⟨true⟩ rsInit jobInit
        ⟨some "A", none, none, "u1", none, none, none, none, none, none⟩).rs.seenPlaceIds ∧
    onPlaceReady ⟨true⟩
      (onPlaceReady ⟨true⟩ rsInit jobInit
        ⟨some "A", none, none, "u1", none, none, none, none, none, none⟩).rs jobInit
      ⟨some "B", none, none, "u1", some "https://b.example", none, none, none, none, none⟩ =
      ⟨(onPlaceReady ⟨true⟩ rsInit jobInit
        ⟨some "A", none, none, "u1", none, none, none, none, none, none⟩).rs, jobInit, [],
        false⟩ :=
  c10_filtered_key_marked_seen ⟨true⟩ rsInit jobInit jobInit _ _ rfl (by decide)
    (by decide) rfl rfl

/-! ## Accept/reject bridge lemmas -/

/-- When all three gates pass, the call is exactly the accept path on the
identity set extended with the record's key. -/
theorem onPlaceReady_accept (cfg : Config) (rs : RunState) (js : JobState) (p : Place)
    (hacc : AcceptCond cfg rs p) :
    onPlaceReady cfg rs js p = acceptPlace ⟨dedupeKey p :: rs.seenPlaceIds, rs.allResults⟩ js p := by
  obtain ⟨h1, h2, h3⟩ := hacc
  simp only [onPlaceReady]
  rw [if_neg (by simp [h1]), if_neg h2, if_neg (by cases hcw : cfg.onlyWithWebsite <;> simp_all)]

/-- When some gate fails, the call leaves the job state untouched, emits
nothing and does not abort. -/
theorem onPlaceReady_reject (cfg : Config) (rs : RunState) (js : JobState) (p : Place)
    (hacc : ¬ AcceptCond cfg rs p) :
    (onPlaceReady cfg rs js p).js = js ∧ (onPlaceReady cfg rs js p).evs = [] ∧
      (onPlaceReady cfg rs js p).abort = false := by
  simp only [onPlaceReady]
  by_cases h1 : nameInvalid p = true
  · simp [h1]
  · by_cases h2 : dedupeKey p ∈ rs.seenPlaceIds
    · simp [h1, h2]
    · by_cases h3 : (cfg.onlyWithWebsite && !(strTruthy p.website)) = true
      · rw [if_neg h1, if_neg h2, if_pos h3]
        exact ⟨rfl, rfl, rfl⟩
      · exact absurd ⟨by simpa using h1, h2, fun hw => by
          simp only [Bool.and_eq_true, Bool.not_eq_true', not_and] at h3
          simpa using h3 hw⟩ hacc

/-! ## C3: when checkpoints are evaluated -/

/-- Reachable job states keep `qualityWindow.length = min saved 20`. -/
def LenInv (js : JobState) : Prop :=
  js.qualityWindow.length = min js.saved QUALITY_WINDOW_SIZE

instance (js : JobState) : Decidable (LenInv js) := by
  unfold LenInv
  infer_instance

/-- A concrete fully-populated record (used for concrete executions). -/
def cexPlace (i : ℕ) : Place :=
  ⟨some "A", none, none, "u" ++ toString i, some "w", some "+5511", some "+5512",
    some 5, some 10, some "addr"⟩

/-- Ten distinct fully-populated extraction outcomes. -/
def cexTen : List (Option Place) :=
  [some (cexPlace 0), some (cexPlace 1), some (cexPlace 2), some (cexPlace 3),
   some (cexPlace 4), some (cexPlace 5), some (cexPlace 6), some (cexPlace 7),
   some (cexPlace 8), some (cexPlace 9)]

/-- C3 counterexample: a job that accepts exactly 10 records evaluates a
quality checkpoint at the 10th acceptance — with a window of only 10
records, not the full capacity 20.  Under the claim (checkpoint only when
`saved` is a positive multiple of 10 AND the window is full at 20) this
acceptance step would evaluate no checkpoint. -/
theorem c3_counterexample :
    (pushesOf (runJob ⟨false⟩ rsInit cexTen).evs).length = 10 ∧
    (checkpointsOf (runJob ⟨false⟩ rsInit cexTen).evs).map List.length = [10] := by
  with_unfolding_all decide

/-- C3 (amended): the window-length invariant `|window| = min(saved, 20)`
holds initially and is preserved by every call; under it, an
`onPlaceReady` call evaluates a checkpoint iff it accepts its record and
the new accepted count is a (positive) multiple of 10 — the code condition
`saved % 10 === 0 && window.length >= 10` requires the window to hold at
least `QUALITY_CHECK_EVERY = 10` records, not to be full at capacity
`QUALITY_WINDOW_SIZE = 20`, and the `>= 10` clause is implied; the
evaluated window holds `min(saved, 20)` records. -/
theorem c3_checkpoint_condition :
    LenInv jobInit ∧
    (∀ (cfg : Config) (rs : RunState) (js : JobState) (p : Place),
      LenInv js → LenInv (onPlaceReady cfg rs js p).js) ∧
    (∀ (cfg : Config) (rs : RunState) (js : JobState) (p : Place),
      LenInv js →
        (checkpointsOf (onPlaceReady cfg rs js p).evs ≠ [] ↔
          pushesOf (onPlaceReady cfg rs js p).evs ≠ [] ∧
            (js.saved + 1) % QUALITY_CHECK_EVERY = 0)) ∧
    (∀ (cfg : Config) (rs : RunState) (js : JobState) (p : Place),
      ∀ w ∈ checkpointsOf (onPlaceReady cfg rs js p).evs,
        LenInv js → w.length = min (js.saved + 1) QUALITY_WINDOW_SIZE) := by
  have hwin : ∀ (rs : RunState) (js : JobState) (p : Place), LenInv js →
      (acceptPlace rs js p).js.qualityWindow.length = min (js.saved + 1) QUALITY_WINDOW_SIZE := by
    intro rs js p h
    obtain ⟨hsaved, hwindow⟩ := acceptPlace_js rs js p
    unfold LenInv at h
    unfold QUALITY_WINDOW_SIZE at *
    rw [hwindow]
    split <;> simp_all [List.length_tail] <;> omega
  refine ⟨by simp [LenInv, jobInit], ?_, ?_, ?_⟩
  · intro cfg rs js p h
    by_cases hacc : AcceptCond cfg rs p
    · rw [onPlaceReady_accept cfg rs js p hacc]
      unfold LenInv
      rw [hwin _ js p h, (acceptPlace_js _ js p).1]
    · rw [(onPlaceReady_reject cfg rs js p hacc).1]
      exact h
  · intro cfg rs js p h
    by_cases hacc : AcceptCond cfg rs p
    · rw [onPlaceReady_accept cfg rs js p hacc]
      rw [acceptPlace_checkpoints, acceptPlace_pushes]
      rw [hwin _ js p h]
      by_cases hm : (js.saved + 1) % QUALITY_CHECK_EVERY = 0
      · have hge : QUALITY_CHECK_EVERY ≤ min (js.saved + 1) QUALITY_WINDOW_SIZE := by
          unfold QUALITY_CHECK_EVERY at hm ⊢
          unfold QUALITY_WINDOW_SIZE
          omega
        rw [if_pos ⟨hm, hge⟩]
        simp [hm]
      · rw [if_neg (fun hc => hm hc.1)]
        simp [hm]
    · obtain ⟨-, hevs, -⟩ := onPlaceReady_reject cfg rs js p hacc
      rw [hevs]
      simp [checkpointsOf, pushesOf]
  · intro cfg rs js p w hw h
    by_cases hacc : AcceptCond cfg rs p
    · rw [onPlaceReady_accept cfg rs js p hacc] at hw
      rw [acceptPlace_checkpoints] at hw
      have hlen := hwin ⟨dedupeKey p :: rs.seenPlaceIds, rs.allResults⟩ js p h
      split at hw
      · simp only [List.mem_singleton] at hw
        subst hw
        exact hlen
      · simp at hw
    · rw [(onPlaceReady_reject cfg rs js p hacc).2.1] at hw
      simp [checkpointsOf] at hw

/-- Witness for C3: at a reachable state with 9 accepted records, the 10th
acceptance evaluates a checkpoint (the theorem's condition fires with the
window far from full). -/
theorem c3_witness :
    checkpointsOf (onPlaceReady ⟨false⟩ rsInit
      ⟨9, [cexPlace 1, cexPlace 2, cexPlace 3, cexPlace 4, cexPlace 5, cexPlace 6,
        cexPlace 7, cexPlace 8, cexPlace 9], []⟩ (cexPlace 0)).evs ≠ [] := by
  have h := c3_checkpoint_condition.2.2.1 ⟨false⟩ rsInit
    ⟨9, [cexPlace 1, cexPlace 2, cexPlace 3, cexPlace 4, cexPlace 5, cexPlace 6,
      cexPlace 7, cexPlace 8, cexPlace 9], []⟩ (cexPlace 0) (by decide)
  rw [h]
  refine ⟨?_, by decide⟩
  rw [onPlaceReady_pushes, if_pos (by decide)]
  simp

/-! ## C4: retry-queue flush behaviour -/

@[simp] theorem flushesOf_nil : flushesOf [] = [] := rfl

@[simp] theorem flushesOf_push (p : Place) (evs : List Event) :
    flushesOf (.push p :: evs) = flushesOf evs := rfl

@[simp] theorem flushesOf_checkpoint (w : List Place) (evs : List Event) :
    flushesOf (.checkpoint w :: evs) = flushesOf evs := rfl

@[simp] theorem flushesOf_flushRetry (q : List RetryEntry) (evs : List Event) :
    flushesOf (.flushRetry q :: evs) = q :: flushesOf evs := rfl

@[simp] theorem flushesOf_dispatch (i : ℕ) (evs : List Event) :
    flushesOf (.dispatch i :: evs) = flushesOf evs := rfl

@[simp] theorem flushesOf_abortObserved (evs : List Event) :
    flushesOf (.abortObserved :: evs) = flushesOf evs := rfl

/-- Flush batches of one accept-path call: at most one; none when the call
does not abort; an emitted batch is exactly the (non-empty) post-state
retry queue. -/
theorem acceptPlace_flush_char (rs : RunState) (js : JobState) (p : Place) :
    (flushesOf (acceptPlace rs js p).evs).length ≤ 1 ∧
    ((acceptPlace rs js p).abort = false → flushesOf (acceptPlace rs js p).evs = []) ∧
    ∀ q ∈ flushesOf (acceptPlace rs js p).evs,
      q = (acceptPlace rs js p).js.retryQueue ∧ q ≠ [] ∧ (acceptPlace rs js p).abort = true := by
  simp only [acceptPlace]
  repeat' split
  all_goals simp_all

/-- Flush batches of one `onPlaceReady` call (same statement through the
gates). -/
theorem onPlaceReady_flush_char (cfg : Config) (rs : RunState) (js : JobState) (p : Place) :
    (flushesOf (onPlaceReady cfg rs js p).evs).length ≤ 1 ∧
    ((onPlaceReady cfg rs js p).abort = false → flushesOf (onPlaceReady cfg rs js p).evs = []) ∧
    ∀ q ∈ flushesOf (onPlaceReady cfg rs js p).evs,
      q = (onPlaceReady cfg rs js p).js.retryQueue ∧ q ≠ [] ∧
        (onPlaceReady cfg rs js p).abort = true := by
  by_cases hacc : AcceptCond cfg rs p
  · rw [onPlaceReady_accept cfg rs js p hacc]
    exact acceptPlace_flush_char _ js p
  · obtain ⟨-, hevs, -⟩ := onPlaceReady_reject cfg rs js p hacc
    rw [hevs]
    simp

/-- Flush batches through the whole dispatch loop: at most one per job,
and an emitted batch is exactly the job's final (non-empty) retry queue,
emitted only on a quality abort. -/
theorem jobLoop_flush_char (cfg : Config) (os : List (Option Place)) :
    ∀ (i : ℕ) (rs : RunState) (js : JobState),
      (flushesOf (jobLoop cfg os i rs js).evs).length ≤ 1 ∧
      ∀ q ∈ flushesOf (jobLoop cfg os i rs js).evs,
        q = (jobLoop cfg os i rs js).js.retryQueue ∧ q ≠ [] ∧
          Event.abortObserved ∈ (jobLoop cfg os i rs js).evs := by
  induction os with
  | nil =>
    intro i rs js
    simp [jobLoop]
  | cons o rest ih =>
    intro i rs js
    match o with
    | none =>
      simpa [jobLoop] using ih (i + 1) rs js
    | some p =>
      simp only [jobLoop]
      by_cases hab : (onPlaceReady cfg rs js p).abort = true
      · rw [if_pos hab]
        obtain ⟨hlen, -, hmem⟩ := onPlaceReady_flush_char cfg rs js p
        simp only [flushesOf_dispatch, flushesOf_append, flushesOf_abortObserved, flushesOf_nil,
          List.append_nil]
        refine ⟨hlen, ?_⟩
        intro q hq
        obtain ⟨hq1, hq2, -⟩ := hmem q hq
        exact ⟨hq1, hq2, by simp⟩
      · rw [if_neg hab]
        obtain ⟨-, hnone, -⟩ := onPlaceReady_flush_char cfg rs js p
        rw [Bool.not_eq_true] at hab
        have hz := hnone hab
        obtain ⟨hlen, hmem⟩ := ih (i + 1) (onPlaceReady cfg rs js p).rs (onPlaceReady cfg rs js p).js
        simp only [flushesOf_dispatch, flushesOf_append, hz, List.nil_append]
        refine ⟨hlen, ?_⟩
        intro q hq
        obtain ⟨hq1, hq2, hq3⟩ := hmem q hq
        exact ⟨hq1, hq2, by simp [hq3]⟩

/-- C4 (amended): the retry-queue flush is tied to the quality abort, not
to normal job end.  Every job starts with an empty retry queue; at most
one flush (an `Actor.pushData` to the `retry_queue` side channel, an
event distinct from main-stream pushes) happens per job; a flush emits
exactly the job's entire buffered annotated retry queue, which is
non-empty, and only together with an observed abort.  No in-place clear
exists, and no second flush can observe the buffer, because the abort
ends the job and the next job gets a fresh buffer. -/
theorem c4_flush_on_abort :
    jobInit.retryQueue = [] ∧
    ∀ (cfg : Config) (rs : RunState) (os : List (Option Place)),
      (flushesOf (runJob cfg rs os).evs).length ≤ 1 ∧
      ∀ q ∈ flushesOf (runJob cfg rs os).evs,
        q = (runJob cfg rs os).js.retryQueue ∧ q ≠ [] ∧
          Event.abortObserved ∈ (runJob cfg rs os).evs := by
  exact ⟨rfl, fun cfg rs os => jobLoop_flush_char cfg os 0 rs jobInit⟩

/-- A record with no contact channel at all (critical issue
`sem_contato`), everything else filled. -/
def cexNC (i : ℕ) : Place :=
  ⟨some "B", none, none, "v" ++ toString i, some "w", none, none, some 5, some 10, some "addr"⟩

/-- C4 counterexample: a job that completes normally (no abort) with one
flagged record ends with a non-empty retry queue and zero emissions to
the side channel — the buffer is not flushed at job end, contradicting
the claim that the queue is flushed at job end as well as on abort. -/
theorem c4_counterexample :
    (runJob ⟨false⟩ rsInit [some (cexNC 0)]).js.retryQueue.length = 1 ∧
    flushesOf (runJob ⟨false⟩ rsInit [some (cexNC 0)]).evs = [] ∧
    Event.abortObserved ∉ (runJob ⟨false⟩ rsInit [some (cexNC 0)]).evs := by
  with_unfolding_all decide

/-- Ten distinct contact-less extraction outcomes: the job aborts at the
10th acceptance and flushes its 10 buffered entries. -/
def cexAbortTen : List (Option Place) :=
  [some (cexNC 0), some (cexNC 1), some (cexNC 2), some (cexNC 3), some (cexNC 4),
   some (cexNC 5), some (cexNC 6), some (cexNC 7), some (cexNC 8), some (cexNC 9)]

/-- Witness for C4 at a concrete aborting run: the flushed batch is the
entire final retry queue, non-empty, with the abort observed. -/
theorem c4_witness :
    (runJob ⟨false⟩ rsInit cexAbortTen).js.retryQueue ≠ [] ∧
    Event.abortObserved ∈ (runJob ⟨false⟩ rsInit cexAbortTen).evs := by
  have h := (c4_flush_on_abort.2 ⟨false⟩ rsInit cexAbortTen).2
    ((runJob ⟨false⟩ rsInit cexAbortTen).js.retryQueue) (by with_unfolding_all decide)
  exact ⟨h.2.1, h.2.2⟩

/-! ## C7: abort ordering in the dispatch loop -/

@[simp] theorem dispatchesOf_nil : dispatchesOf [] = [] := rfl

@[simp] theorem dispatchesOf_push (p : Place) (evs : List Event) :
    dispatchesOf (.push p :: evs) = dispatchesOf evs := rfl

@[simp] theorem dispatchesOf_checkpoint (w : List Place) (evs : List Event) :
    dispatchesOf (.checkpoint w :: evs) = dispatchesOf evs := rfl

@[simp] theorem dispatchesOf_flushRetry (q : List RetryEntry) (evs : List Event) :
    dispatchesOf (.flushRetry q :: evs) = dispatchesOf evs := rfl

@[simp] theorem dispatchesOf_dispatch (i : ℕ) (evs : List Event) :
    dispatchesOf (.dispatch i :: evs) = i :: dispatchesOf evs := rfl

@[simp] theorem dispatchesOf_abortObserved (evs : List Event) :
    dispatchesOf (.abortObserved :: evs) = dispatchesOf evs := rfl

/-- One `onPlaceReady` call emits neither dispatch markers nor abort
observations (those belong to the loop). -/
theorem onPlaceReady_evs_kinds (cfg : Config) (rs : RunState) (js : JobState) (p : Place) :
    dispatchesOf (onPlaceReady cfg rs js p).evs = [] ∧
    Event.abortObserved ∉ (onPlaceReady cfg rs js p).evs := by
  by_cases hacc : AcceptCond cfg rs p
  · rw [onPlaceReady_accept cfg rs js p hacc]
    simp only [acceptPlace]
    repeat' split
    all_goals simp_all
  · obtain ⟨-, hevs, -⟩ := onPlaceReady_reject cfg rs js p hacc
    rw [hevs]
    simp

/-- Trace shape of the dispatch loop: a consumed prefix of the reference
list is dispatched in order; once the abort is observed it is the final
event of the trace, so every side-channel flush precedes it and nothing
is dispatched after it; the unconsumed references are returned
undispatched. -/
theorem jobLoop_trace (cfg : Config) (os : List (Option Place)) :
    ∀ (i : ℕ) (rs : RunState) (js : JobState),
      ∃ consumed, os = consumed ++ (jobLoop cfg os i rs js).remaining ∧
        dispatchesOf (jobLoop cfg os i rs js).evs = List.range' i consumed.length ∧
        (Event.abortObserved ∈ (jobLoop cfg os i rs js).evs →
          ∃ pre, (jobLoop cfg os i rs js).evs = pre ++ [Event.abortObserved] ∧
            Event.abortObserved ∉ pre) := by
  induction os with
  | nil =>
    intro i rs js
    exact ⟨[], by simp [jobLoop], by simp [jobLoop, List.range'], by simp [jobLoop]⟩
  | cons o rest ih =>
    intro i rs js
    match o with
    | none =>
      obtain ⟨consumed, hsplit, hdisp, habort⟩ := ih (i + 1) rs js
      refine ⟨none :: consumed, ?_, ?_, ?_⟩
      · simp only [jobLoop]
        rw [List.cons_append, ← hsplit]
      · simp only [jobLoop, dispatchesOf_dispatch, hdisp, List.length_cons]
        simp [List.range'_succ]
      · simp only [jobLoop]
        intro h
        rcases List.mem_cons.mp h with h1 | h1
        · exact absurd h1 (by simp)
        · obtain ⟨pre, hpre, hnot⟩ := habort h1
          exact ⟨.dispatch i :: pre, by rw [List.cons_append, hpre], by simp [hnot]⟩
    | some p =>
      by_cases hab : (onPlaceReady cfg rs js p).abort = true
      · refine ⟨[some p], ?_, ?_, ?_⟩
        · simp [jobLoop, hab]
        · simp only [jobLoop, if_pos hab, dispatchesOf_dispatch, dispatchesOf_append,
            dispatchesOf_abortObserved, dispatchesOf_nil, (onPlaceReady_evs_kinds cfg rs js p).1]
          simp [List.range'_succ, List.range']
        · intro h
          simp only [jobLoop, if_pos hab]
          refine ⟨.dispatch i :: (onPlaceReady cfg rs js p).evs, by simp, ?_⟩
          simp only [List.mem_cons, not_or]
          exact ⟨by simp, (onPlaceReady_evs_kinds cfg rs js p).2⟩
      · obtain ⟨consumed, hsplit, hdisp, habort⟩ :=
          ih (i + 1) (onPlaceReady cfg rs js p).rs (onPlaceReady cfg rs js p).js
        refine ⟨some p :: consumed, ?_, ?_, ?_⟩
        · simp only [jobLoop, if_neg hab]
          rw [List.cons_append, ← hsplit]
        · simp only [jobLoop, if_neg hab, dispatchesOf_dispatch, dispatchesOf_append,
            (onPlaceReady_evs_kinds cfg rs js p).1, List.nil_append, hdisp, List.length_cons]
          simp [List.range'_succ]
        · simp only [jobLoop, if_neg hab]
          intro h
          rcases List.mem_cons.mp h with h1 | h1
          on_goal 1 => exact absurd h1 (by simp)
          rcases List.mem_append.mp h1 with h2 | h2
          · exact absurd h2 (onPlaceReady_evs_kinds cfg rs js p).2
          · obtain ⟨pre, hpre, hnot⟩ := habort h2
            refine ⟨.dispatch i :: (onPlaceReady cfg rs js p).evs ++ pre, ?_, ?_⟩
            · rw [hpre]
              simp
            · intro hc
              rcases List.mem_cons.mp hc with hc1 | hc1
              · simp at hc1
              · rcases List.mem_append.mp hc1 with hc2 | hc2
                · exact (onPlaceReady_evs_kinds cfg rs js p).2 hc2
                · exact hnot hc2

/-- C7: in a job, the dispatched references form a prefix of the
discovered list, dispatched in discovery order (`dispatch 0, 1, ...`);
when the quality monitor aborts, the abort observation is the final trace
event, so the retry-queue flush (emitted inside the aborting
`onPlaceReady` call, before `'ABORT'` is returned) precedes it, no
further reference is dispatched after it, and the unconsumed references
remain undispatched.  Extraction of a dispatched reference completes
before the abort flag is consulted (the loop is sequential), so no
in-flight extraction is ever interrupted. -/
theorem c7_flush_before_abort :
    ∀ (cfg : Config) (rs : RunState) (os : List (Option Place)),
      (∃ consumed, os = consumed ++ (runJob cfg rs os).remaining ∧
        dispatchesOf (runJob cfg rs os).evs = List.range consumed.length) ∧
      (Event.abortObserved ∈ (runJob cfg rs os).evs →
        ∃ pre, (runJob cfg rs os).evs = pre ++ [Event.abortObserved] ∧
          Event.abortObserved ∉ pre ∧ flushesOf pre = flushesOf (runJob cfg rs os).evs) := by
  intro cfg rs os
  obtain ⟨consumed, hsplit, hdisp, habort⟩ := jobLoop_trace cfg os 0 rs jobInit
  simp only [runJob]
  constructor
  · exact ⟨consumed, hsplit, by rw [hdisp, List.range_eq_range']⟩
  · intro h
    obtain ⟨pre, hpre, hnot⟩ := habort h
    refine ⟨pre, hpre, hnot, ?_⟩
    rw [hpre, flushesOf_append]
    simp

/-- Witness for C7 at a concrete aborting run: the abort observation is
final, preceded by the flush, with all events of the trace before it. -/
theorem c7_witness :
    ∃ pre, (runJob ⟨false⟩ rsInit cexAbortTen).evs = pre ++ [Event.abortObserved] ∧
      Event.abortObserved ∉ pre ∧
      flushesOf pre = flushesOf (runJob ⟨false⟩ rsInit cexAbortTen).evs :=
  (c7_flush_before_abort ⟨false⟩ rsInit cexAbortTen).2 (by with_unfolding_all decide)

/-! ## C8: run-level validation and per-term failure isolation -/

/-- Malformed run-level input per src/main.js:660-661:
`!input?.searchTerms?.length` (absent input, absent or empty list) or
`!input.location` (absent or empty location). -/
def malformedInput : Option Input → Bool
  | none => true
  | some inp =>
    match inp.searchTerms with
    | none => true
    | some [] => true
    | some (_ :: _) => !(strTruthy inp.location)

/-- A failing term job is invisible to the rest of the run. -/
theorem runTerms_skip_error (cfg : Config) (pre post : List (Except Unit (List (Option Place))))
    (e : Unit) :
    ∀ rs, runTerms cfg (pre ++ .error e :: post) rs = runTerms cfg (pre ++ post) rs := by
  induction pre with
  | nil =>
    intro rs
    simp [runTerms]
  | cons o rest ih =>
    intro rs
    match o with
    | .error e2 => simp [runTerms, ih]
    | .ok os => simp [runTerms, ih]

/-- C8: the run fails fatally before any scraping exactly when the input
is malformed — `searchTerms` absent or empty, or `location` absent/empty
(first conjunct); a fatal run pushes nothing to the output (second
conjunct); and a failure confined to one search term's job (caught and
logged by the per-term `try`/`catch`) leaves the rest of the run exactly
as if that term were skipped — later terms still run (third conjunct). -/
theorem c8_validation_and_isolation :
    (∀ (input : Option Input) (outcomes : List (Except Unit (List (Option Place)))),
      isErr (runMain input outcomes) = malformedInput input) ∧
    (∀ (input : Option Input) (outcomes : List (Except Unit (List (Option Place)))),
      malformedInput input = true → runPushes (runMain input outcomes) = []) ∧
    (∀ (input : Option Input) (pre post : List (Except Unit (List (Option Place)))) (e : Unit),
      runMain input (pre ++ .error e :: post) = runMain input (pre ++ post)) := by
  refine ⟨?_, ?_, ?_⟩
  · intro input outcomes
    match input with
    | none => rfl
    | some inp =>
      match h : inp.searchTerms with
      | none => simp [runMain, h, malformedInput, isErr]
      | some [] => simp [runMain, h, malformedInput, isErr]
      | some (t :: ts) =>
        simp only [runMain, h, malformedInput]
        by_cases hloc : strTruthy inp.location = true
        · rw [if_neg (by simp [hloc])]
          simp [isErr, hloc]
        · rw [if_pos (by simp_all)]
          simp only [isErr]
          simp_all
  · intro input outcomes hmal
    match input with
    | none => rfl
    | some inp =>
      match h : inp.searchTerms with
      | none => simp [runMain, h, runPushes]
      | some [] => simp [runMain, h, runPushes]
      | some (t :: ts) =>
        simp only [malformedInput, h] at hmal
        simp [runMain, h, hmal, runPushes]
  · intro input pre post e
    match input with
    | none => rfl
    | some inp =>
      match h : inp.searchTerms with
      | none => simp [runMain, h]
      | some [] => simp [runMain, h]
      | some (t :: ts) =>
        simp only [runMain, h]
        by_cases hloc : strTruthy inp.location = true
        · rw [if_neg (by simp [hloc]), if_neg (by simp [hloc])]
          rw [runTerms_skip_error]
        · rw [if_pos (by simp_all), if_pos (by simp_all)]

/-- Witness for C8: an input with an empty term list fails fatally with no
output, and a run whose first term job throws still produces the second
term's records. -/
theorem c8_witness :
    runPushes (runMain (some ⟨some [], some "Goiânia", false⟩) [.ok cexTen]) = [] ∧
    runMain (some ⟨some ["a", "b"], some "Goiânia", false⟩) ([] ++ .error () :: [.ok cexTen]) =
      runMain (some ⟨some ["a", "b"], some "Goiânia", false⟩) ([] ++ [.ok cexTen]) :=
  ⟨c8_validation_and_isolation.2.1 _ [.ok cexTen] rfl,
   c8_validation_and_isolation.2.2 _ [] [.ok cexTen] ()⟩

/-! ## C5: abort decision at a checkpoint -/

/-- Count of window records with at least one contact channel (the
composite criterion the claim calls the contact fill). -/
def contactFilledCount (w : List Place) : ℕ :=
  (w.filter fun r => strTruthy r.phone || strTruthy r.whatsapp).length

/-- Contact-filled and contact-less records partition the window. -/
theorem contact_counts (w : List Place) :
    contactFilledCount w + semContatoCount w = w.length := by
  induction w with
  | nil => rfl
  | cons r t ih =>
    have hsem : semContato r = !(strTruthy r.phone || strTruthy r.whatsapp) := by
      simp [semContato, Bool.not_or]
    simp only [contactFilledCount, semContatoCount, List.filter_cons, List.length_cons] at *
    cases h : (strTruthy r.phone || strTruthy r.whatsapp) <;> simp [h, hsem] <;> omega

/-- At the window sizes that occur at checkpoints (10 or 20 records), the
rounded-percentage contact test of the code agrees with the exact
comparison of the contact fill fraction against the 0.95 floor. -/
theorem hasContactProblem_iff (w : List Place) (hlen : w.length = 10 ∨ w.length = 20) :
    (hasContactProblem w = true ↔ (contactFilledCount w : ℚ) / (w.length : ℚ) < 95/100) := by
  have hcc := contact_counts w
  have hk : semContatoCount w ≤ w.length := by omega
  have hcf : contactFilledCount w = w.length - semContatoCount w := by omega
  unfold hasContactProblem jsRound
  rw [hcf]
  rcases hlen with hl | hl <;> rw [hl] <;> rw [hl] at hk <;>
    generalize hg : semContatoCount w = k at hk ⊢ <;> interval_cases k <;> norm_num

/-- `failing.some(f => f.field === 'rating')` holds exactly when the
rating fill fraction is below its 0.95 floor. -/
theorem checkQuality_rating_iff (w : List Place) (hlen : w.length ≠ 0) :
    ((checkQuality w).any fun f => f.1 == "rating") = true ↔
      ((w.filter fun r => fieldFilled r "rating").length : ℚ) / (w.length : ℚ) < 95/100 := by
  unfold checkQuality
  rw [if_neg hlen]
  simp only [QUALITY_THRESHOLDS, List.filterMap_cons, List.filterMap_nil]
  by_cases h1 : ((w.filter fun r => fieldFilled r "phone").length : ℚ) / (w.length : ℚ) < 95/100 <;>
  by_cases h2 : ((w.filter fun r => fieldFilled r "rating").length : ℚ) / (w.length : ℚ) < 95/100 <;>
  by_cases h3 :
    ((w.filter fun r => fieldFilled r "reviews_count").length : ℚ) / (w.length : ℚ) < 85/100 <;>
  by_cases h4 :
    ((w.filter fun r => fieldFilled r "full_address").length : ℚ) / (w.length : ℚ) < 95/100 <;>
  simp [h1, h2, h3, h4]

/-- A record with one contact channel, paired rating, everything filled. -/
def cexContact : Place :=
  ⟨some "A", none, none, "u", some "w", some "+5511", none, some 5, some 10, some "addr"⟩

/-- 20-record window with contact fill 16/20 = 0.80. -/
def cexW80 : List Place := List.replicate 16 cexContact ++ List.replicate 4 (cexNC 0)

/-- 100-record window with contact fill 97/100 = 0.97 (ratio 0.97 is not
realizable at the capacity-bounded window sizes, so the decision function
is exercised at denominator 100). -/
def cexW97 : List Place := List.replicate 97 cexContact ++ List.replicate 3 (cexNC 0)

/-- A record whose only gap is `reviews_count` (an advisory field). -/
def cexNoReviews : Place :=
  ⟨some "A", none, none, "u", some "w", some "+5511", none, some 5, none, some "addr"⟩

/-- 10-record window failing only the advisory `reviews_count` floor. -/
def cexWadv : List Place := List.replicate 10 cexNoReviews

set_option maxRecDepth 40000 in
/-- C5: at a checkpoint the monitor decides ABORT iff a critical
criterion is below its floor — the composite contact-channel fill
(phone or whatsapp present) below 0.95, or the rating fill below 0.95
(first conjunct, for the window sizes 10 and 20 that occur at
checkpoints).  Concretely: contact fill 0.80 against the 0.95 floor
aborts; fill 0.97 against the same floor continues; a window failing only
the advisory `reviews_count` floor reports a failing field yet continues
(remaining conjuncts). -/
theorem c5_abort_iff_critical :
    (∀ w : List Place, w.length = 10 ∨ w.length = 20 →
      (shouldAbortDecision w = true ↔
        (contactFilledCount w : ℚ) / (w.length : ℚ) < 95/100 ∨
        ((w.filter fun r => fieldFilled r "rating").length : ℚ) / (w.length : ℚ) < 95/100)) ∧
    shouldAbortDecision cexW80 = true ∧
    shouldAbortDecision cexW97 = false ∧
    checkQuality cexWadv ≠ [] ∧ shouldAbortDecision cexWadv = false := by
  refine ⟨?_, ?_, ?_, ?_, ?_⟩
  · intro w hlen
    unfold shouldAbortDecision
    rw [Bool.or_eq_true, hasContactProblem_iff w hlen,
      checkQuality_rating_iff w (by rcases hlen with h | h <;> omega)]
  · with_unfolding_all decide
  · with_unfolding_all decide
  · with_unfolding_all decide
  · with_unfolding_all decide

set_option maxRecDepth 40000 in
/-- Witness for C5 at the 0.80-fill window: the theorem yields that a
critical criterion is below its floor there. -/
theorem c5_witness :
    (contactFilledCount cexW80 : ℚ) / (cexW80.length : ℚ) < 95/100 ∨
    ((cexW80.filter fun r => fieldFilled r "rating").length : ℚ) / (cexW80.length : ℚ) <
      95/100 :=
  (c5_abort_iff_critical.1 cexW80 (Or.inr (by with_unfolding_all decide))).mp
    (by with_unfolding_all decide)

/-! ## C2: link discovery bounds and (non-)termination -/

/-- Collection keeps fewer than `max` links before each push, so it never
exceeds `max` (for `max ≥ 1`; the push-then-check order means `max = 0`
would still collect one link). -/
theorem collectLinksGo_length (max : ℕ) :
    ∀ (hrefs acc : List String), acc.length < max →
      (collectLinksGo max hrefs acc).length ≤ max := by
  intro hrefs
  induction hrefs with
  | nil =>
    intro acc hacc
    unfold collectLinksGo
    omega
  | cons h rest ih =>
    intro acc hacc
    simp only [collectLinksGo]
    split
    · split
      · simp only [List.length_append, List.length_singleton]
        omega
      · next hlen =>
        apply ih
        simp only [List.length_append, List.length_singleton] at hlen ⊢
        omega
    · exact ih acc hacc

/-- An adversarial feed whose `scrollHeight` changes every round while
the anchor count stays 0 and the end-of-list message never shows. -/
def advScroll : ℕ → ScrollObs := fun n => ⟨0, false, (n : ℤ) + 1⟩

/-- On the adversarial feed the loop never exits, whatever the fuel. -/
theorem advScroll_no_exit :
    ∀ (fuel n s : ℕ), discoverLoop advScroll 20 fuel n (n : ℤ) s = none := by
  intro fuel
  induction fuel with
  | zero => intro n s; rfl
  | succ fuel ih =>
    intro n s
    unfold discoverLoop
    rw [if_neg (by simp [advScroll]), if_neg (by simp [advScroll])]
    have : ((n : ℤ) + 1) = ((n + 1 : ℕ) : ℤ) := by push_cast; ring
    simp only [advScroll]
    rw [this]
    exact ih (n + 1) 0

/-- C2 counterexample: the claimed hard round ceiling does not exist in
the cited loop (`while (true)` with only the three data-driven exits):
on a feed whose growth metric changes every round, one billion rounds
still do not terminate the loop — no ceiling (the spec suggests e.g.
100) is ever enforced.  Also, for `targetCount = 0` the push-then-check
collection still returns one reference, exceeding the target. -/
theorem c2_counterexample :
    discoverLoop advScroll 20 1000000000 0 0 0 = none ∧
    (collectLinks ["a"] 0).length = 1 :=
  ⟨advScroll_no_exit 1000000000 0 0, rfl⟩

/-- Once the feed height is eventually constant, three consecutive
stalled rounds force an exit. -/
theorem discover_stall_exit (stream : ℕ → ScrollObs) (maxPlaces : ℕ) (c : ℤ) :
    ∀ (fuel n s : ℕ), (∀ m, n ≤ m → (stream m).height = c) → s ≤ 2 → 3 ≤ s + fuel →
      discoverLoop stream maxPlaces fuel n c s ≠ none := by
  intro fuel
  induction fuel with
  | zero =>
    intro n s _ hs hfuel
    omega
  | succ fuel ih =>
    intro n s hconst hs hfuel
    simp only [discoverLoop]
    by_cases hexit : maxPlaces ≤ (stream n).count ∨ (stream n).endOfList = true
    · rw [if_pos hexit]
      simp
    · rw [if_neg hexit, if_pos (hconst n le_rfl)]
      by_cases hstall : 3 ≤ s + 1
      · rw [if_pos hstall]
        simp
      · rw [if_neg hstall, hconst n le_rfl]
        exact ih (n + 1) (s + 1) (fun m hm => hconst m (by omega)) (by omega) (by omega)

/-- If the feed stops growing from round `N` on, the loop exits within
`N + 4` rounds from any alive state (`s ≤ 2`). -/
theorem discover_exit_of_stable (stream : ℕ → ScrollObs) (maxPlaces N : ℕ)
    (hconst : ∀ m, N ≤ m → (stream m).height = (stream N).height) :
    ∀ (fuel n : ℕ) (prev : ℤ) (s : ℕ), n ≤ N → s ≤ 2 → N - n + 4 ≤ fuel →
      discoverLoop stream maxPlaces fuel n prev s ≠ none := by
  intro fuel
  induction fuel with
  | zero =>
    intro n prev s hn hs hfuel
    omega
  | succ fuel ih =>
    intro n prev s hn hs hfuel
    simp only [discoverLoop]
    by_cases hexit : maxPlaces ≤ (stream n).count ∨ (stream n).endOfList = true
    · rw [if_pos hexit]
      simp
    · rw [if_neg hexit]
      by_cases heq : (stream n).height = prev
      · rw [if_pos heq]
        by_cases hstall : 3 ≤ s + 1
        · rw [if_pos hstall]
          simp
        · rw [if_neg hstall]
          by_cases hN : n < N
          · exact ih (n + 1) (stream n).height (s + 1) (by omega) (by omega) (by omega)
          · have hnN : n = N := by omega
            exact discover_stall_exit stream maxPlaces ((stream n).height) fuel (n + 1) (s + 1)
              (fun m hm => by rw [hnN]; exact hconst m (by omega)) (by omega) (by omega)
      · rw [if_neg heq]
        by_cases hN : n < N
        · exact ih (n + 1) (stream n).height 0 (by omega) (by omega) (by omega)
        · have hnN : n = N := by omega
          exact discover_stall_exit stream maxPlaces ((stream n).height) fuel (n + 1) 0
            (fun m hm => by rw [hnN]; exact hconst m (by omega)) (by omega) (by omega)

/-- C2 (amended): link collection returns at most `targetCount`
references for every `targetCount ≥ 1` (first conjunct; the
push-then-check order would still collect one link for `targetCount = 0`),
and the scroll loop terminates via its three data-driven exits — in
particular, whenever the growth metric is eventually constant the
3-consecutive-stall exit fires within `N + 4` rounds (second conjunct).
There is, however, no hard round ceiling: termination is not guaranteed
when none of the three exit conditions ever fires (see the
counterexample). -/
theorem c2_discovery_bounds :
    (∀ (hrefs : List String) (max : ℕ), 1 ≤ max → (collectLinks hrefs max).length ≤ max) ∧
    (∀ (stream : ℕ → ScrollObs) (maxPlaces N : ℕ),
      (∀ m, N ≤ m → (stream m).height = (stream N).height) →
      discoverLoop stream maxPlaces (N + 4) 0 0 0 ≠ none) := by
  constructor
  · intro hrefs max hmax
    exact collectLinksGo_length max hrefs [] (by simpa using hmax)
  · intro stream maxPlaces N hconst
    exact discover_exit_of_stable stream maxPlaces N hconst (N + 4) 0 0 0 (by omega) (by omega)
      (by omega)

/-- Witness for C2: a duplicate-laden href list is capped at 1 link, and
on a feed with constant height the loop exits within 4 rounds. -/
theorem c2_witness :
    (collectLinks ["a", "a", "b", "c"] 1).length ≤ 1 ∧
    discoverLoop (fun _ => ⟨0, false, 5⟩) 20 4 0 0 0 ≠ none :=
  ⟨c2_discovery_bounds.1 ["a", "a", "b", "c"] 1 (by decide),
   c2_discovery_bounds.2 (fun _ => ⟨0, false, 5⟩) 20 0 (fun m _ => rfl)⟩

/-! ## C6: correctness of the bounded worker pool -/

/-- Pool invariant: the results array keeps the tasks' length, the cursor
never passes the end, a written cell holds its own task's outcome, every
claimed index is written or held by some worker, and held indices are
claimed. -/
def SchedInv (tasks : List (Option α)) (st : SchedState α) : Prop :=
  st.results.length = tasks.length ∧
  st.cursor ≤ tasks.length ∧
  (∀ (i : ℕ) (r : Option α), st.results[i]? = some (some r) → r = (tasks[i]?).getD none) ∧
  (∀ i : ℕ, i < st.cursor → (∃ r, st.results[i]? = some (some r)) ∨ some i ∈ st.workers) ∧
  (∀ i : ℕ, some i ∈ st.workers → i < st.cursor)

/-- A list member at a position other than the updated one survives `set`. -/
theorem mem_set_of_getElem?_ne {β : Type} {l : List β} {a : β} {w : ℕ} (b : β)
    (ha : a ∈ l) (hne : l[w]? ≠ some a) : a ∈ l.set w b := by
  obtain ⟨n, hn⟩ := List.mem_iff_getElem?.mp ha
  have hnw : w ≠ n := fun h => hne (h ▸ hn)
  exact List.getElem?_mem (by rw [List.getElem?_set_ne hnw]; exact hn)

/-- The initial pool state satisfies the invariant. -/
theorem schedInit_inv (tasks : List (Option α)) (W : ℕ) :
    SchedInv tasks (schedInit α tasks.length W) := by
  refine ⟨by simp [schedInit], by simp [schedInit], ?_, ?_, ?_⟩
  · intro i r h
    rw [schedInit] at h
    simp only [List.getElem?_replicate] at h
    split at h <;> simp_all
  · intro i h
    simp [schedInit] at h
  · intro i h
    simp [schedInit, List.mem_replicate] at h

/-- One worker step preserves the invariant. -/
theorem schedStep_inv (tasks : List (Option α)) (st : SchedState α) (w : ℕ)
    (h : SchedInv tasks st) : SchedInv tasks (schedStep tasks st w) := by
  obtain ⟨hlen, hcur, hwrite, hcover, hbound⟩ := h
  cases hww : st.workers[w]? with
  | none =>
    simp only [schedStep, hww]
    exact ⟨hlen, hcur, hwrite, hcover, hbound⟩
  | some o =>
    cases o with
    | some i =>
      simp only [schedStep, hww]
      have hiw : some i ∈ st.workers := List.getElem?_mem hww
      have hic : i < st.cursor := hbound i hiw
      have hilen : i < st.results.length := by omega
      refine ⟨by simp [hlen], hcur, ?_, ?_, ?_⟩
      · intro j r hj
        by_cases hij : i = j
        · subst hij
          rw [List.getElem?_set_eq_of_lt _ hilen] at hj
          simp only [Option.some.injEq] at hj
          exact hj.symm
        · rw [List.getElem?_set_ne hij] at hj
          exact hwrite j r hj
      · intro j hj
        replace hj : j < st.cursor := hj
        by_cases hij : i = j
        · subst hij
          exact Or.inl ⟨(tasks[i]?).getD none, by rw [List.getElem?_set_eq_of_lt _ hilen]⟩
        · rcases hcover j hj with ⟨r, hr⟩ | hmem
          · exact Or.inl ⟨r, by rw [List.getElem?_set_ne hij]; exact hr⟩
          · refine Or.inr (mem_set_of_getElem?_ne none hmem ?_)
            rw [hww]
            simp only [ne_eq, Option.some.injEq]
            exact hij
      · intro j hj
        show j < st.cursor
        rcases List.mem_or_eq_of_mem_set hj with hmem | habs
        · exact hbound j hmem
        · cases habs
    | none =>
      by_cases hc : st.cursor < tasks.length
      · simp only [schedStep, hww, if_pos hc]
        have hwlt : w < st.workers.length := by
          by_contra hge
          rw [List.getElem?_eq_none (by omega)] at hww
          cases hww
        refine ⟨hlen, by show st.cursor + 1 ≤ tasks.length; omega, hwrite, ?_, ?_⟩
        · intro j hj
          replace hj : j < st.cursor + 1 := hj
          by_cases hjc : j = st.cursor
          · subst hjc
            refine Or.inr (List.getElem?_mem (n := w) ?_)
            rw [List.getElem?_set_eq_of_lt _ hwlt]
          · rcases hcover j (by omega) with ⟨r, hr⟩ | hmem
            · exact Or.inl ⟨r, hr⟩
            · refine Or.inr (mem_set_of_getElem?_ne _ hmem ?_)
              rw [hww]
              simp
        · intro j hj
          show j < st.cursor + 1
          rcases List.mem_or_eq_of_mem_set hj with hmem | heq
          · have := hbound j hmem
            omega
          · injection heq with heq2
            omega
      · simp only [schedStep, hww, if_neg hc]
        exact ⟨hlen, hcur, hwrite, hcover, hbound⟩

/-- Any schedule preserves the invariant. -/
theorem schedRun_inv (tasks : List (Option α)) (sched : List ℕ) :
    ∀ st : SchedState α, SchedInv tasks st → SchedInv tasks (schedRun tasks st sched) := by
  induction sched with
  | nil => exact fun st h => h
  | cons w rest ih => exact fun st h => ih _ (schedStep_inv tasks st w h)

/-- In a quiescent invariant state, the results array is exactly the task
outcomes: position `i` holds task `i`'s value, or the null written for a
thrown task. -/
theorem sched_quiescent_results (tasks : List (Option α)) (st : SchedState α)
    (hinv : SchedInv tasks st) (hq : Quiescent tasks st) : st.results = tasks.map some := by
  obtain ⟨hlen, hcur, hwrite, hcover, hbound⟩ := hinv
  obtain ⟨hc, hworkers⟩ := hq
  apply List.ext_getElem?
  intro n
  rw [List.getElem?_map]
  by_cases hn : n < tasks.length
  · rcases hcover n (by omega) with ⟨r, hr⟩ | hmem
    · rw [hr]
      have hrt := hwrite n r hr
      have ht : tasks[n]? = some tasks[n] := List.getElem?_eq_getElem hn
      rw [ht]
      rw [ht] at hrt
      simp only [Option.getD_some] at hrt
      rw [hrt]
      rfl
    · have := hworkers _ hmem
      cases this
  · rw [List.getElem?_eq_none (l := st.results) (by omega),
      List.getElem?_eq_none (l := tasks) (by omega)]
    rfl

/-- Driving worker 0 alone for `2·k` steps finishes the remaining `≤ k`
tasks and reaches quiescence (the other workers stay idle throughout). -/
theorem schedRun_zero_quiescent (tasks : List (Option α)) :
    ∀ (k : ℕ) (st : SchedState α),
      st.workers[0]? = some none →
      (∀ (p : ℕ) (o : Option ℕ), p ≠ 0 → st.workers[p]? = some o → o = none) →
      st.cursor ≤ tasks.length → tasks.length - st.cursor ≤ k →
      Quiescent tasks (schedRun tasks st (List.replicate (2 * k) 0)) := by
  intro k
  induction k with
  | zero =>
    intro st h0 hrest hcur hk
    refine ⟨by show st.cursor = tasks.length; omega, ?_⟩
    intro o ho
    replace ho : o ∈ st.workers := ho
    obtain ⟨p, hp⟩ := List.mem_iff_getElem?.mp ho
    by_cases hp0 : p = 0
    · subst hp0
      rw [h0] at hp
      injection hp with hp2
      exact hp2.symm
    · exact hrest p o hp0 hp
  | succ k ih =>
    intro st h0 hrest hcur hk
    have hrep : List.replicate (2 * (k + 1)) (0 : ℕ) = 0 :: 0 :: List.replicate (2 * k) 0 := by
      rw [show 2 * (k + 1) = ((2 * k) + 1) + 1 by ring]
      rfl
    rw [hrep]
    have h0lt : 0 < st.workers.length := by
      by_contra hge
      rw [List.getElem?_eq_none (by omega)] at h0
      cases h0
    show Quiescent tasks
      (schedRun tasks (schedStep tasks (schedStep tasks st 0) 0) (List.replicate (2 * k) 0))
    by_cases hc : st.cursor < tasks.length
    · have hst1 : schedStep tasks st 0 =
          { st with workers := st.workers.set 0 (some st.cursor), cursor := st.cursor + 1 } := by
        simp only [schedStep, h0, if_pos hc]
      have hscrut : (st.workers.set 0 (some st.cursor))[0]? = some (some st.cursor) :=
        List.getElem?_set_eq_of_lt _ (by simpa using h0lt)
      have hst2 : schedStep tasks (schedStep tasks st 0) 0 =
          { st with
            results := st.results.set st.cursor (some ((tasks[st.cursor]?).getD none)),
            workers := (st.workers.set 0 (some st.cursor)).set 0 none,
            cursor := st.cursor + 1 } := by
        rw [hst1]
        simp only [schedStep, hscrut]
      rw [hst2, List.set_set]
      refine ih _ ?_ ?_ ?_ ?_
      · show (st.workers.set 0 none)[0]? = some none
        exact List.getElem?_set_eq_of_lt _ (by simpa using h0lt)
      · intro p o hp0 hpo
        replace hpo : (st.workers.set 0 none)[p]? = some o := hpo
        rw [List.getElem?_set_ne (fun h => hp0 h.symm)] at hpo
        exact hrest p o hp0 hpo
      · show st.cursor + 1 ≤ tasks.length
        omega
      · show tasks.length - (st.cursor + 1) ≤ k
        omega
    · have hst1 : schedStep tasks st 0 = st := by
        simp only [schedStep, h0, if_neg hc]
      rw [hst1, hst1]
      exact ih st h0 hrest hcur (by omega)

/-- C6: under any concurrency limit `C ≥ 1` and any cooperative
interleaving (schedule) that runs the pool to completion, the result
array has exactly the tasks' length and position `i` holds task `i`'s
value — the null outcome for a task that threw, leaving every sibling's
result unaffected; each index is claimed once through the shared cursor.
The second conjunct shows completion is reachable (so the pool does
return), using the schedule that drives worker 0 alone. -/
theorem c6_pool_correct (α : Type) (tasks : List (Option α)) (C : ℕ) (hC : 1 ≤ C) :
    (∀ sched : List ℕ,
      Quiescent tasks (schedRun tasks (schedInit α tasks.length (min C tasks.length)) sched) →
      (schedRun tasks (schedInit α tasks.length (min C tasks.length)) sched).results =
        tasks.map some) ∧
    Quiescent tasks (schedRun tasks (schedInit α tasks.length (min C tasks.length))
      (List.replicate (2 * tasks.length) 0)) := by
  constructor
  · intro sched hq
    exact sched_quiescent_results tasks _
      (schedRun_inv tasks sched _ (schedInit_inv tasks _)) hq
  · match tasks with
    | [] =>
      refine ⟨by simp [schedRun, schedInit], ?_⟩
      intro o ho
      simp [schedRun, schedInit, List.mem_replicate] at ho
    | t :: ts =>
      have hW : 1 ≤ min C (t :: ts).length := by
        simp only [List.length_cons]
        omega
      apply schedRun_zero_quiescent
      · simp only [schedInit, List.getElem?_replicate]
        rw [if_pos (by omega)]
      · intro p o hp0 hpo
        simp only [schedInit, List.getElem?_replicate] at hpo
        split at hpo
        · injection hpo with h2
          exact h2.symm
        · cases hpo
      · simp [schedInit]
      · simp [schedInit]

/-- Concrete three-task pool with one throwing task. -/
def cexTasks : List (Option ℕ) := [some 1, none, some 5]

/-- Witness for C6: with `C = 2` the canonical completing run yields
`[some 1, null, some 5]` — index correspondence kept, the thrown task's
null confined to its own slot. -/
theorem c6_witness :
    (schedRun cexTasks (schedInit ℕ cexTasks.length (min 2 cexTasks.length))
      (List.replicate (2 * cexTasks.length) 0)).results = cexTasks.map some :=
  (c6_pool_correct ℕ cexTasks 2 (by decide)).1 _ (by with_unfolding_all decide)

end GMaps
